import Mathlib

/-!
Shallow embedding of the OnceOK single-flight, memoizing primitive from
src/syncutil.go (with the near-identical Init drafts in src/unnamed/part_000).

The coordinator goroutine (OnceOK.loop, src/syncutil.go lines 86 to 119) is
modelled as a step function on an explicit system state; the caller protocol
(OnceOK.Do, lines 41 to 77) is modelled by the DoTrace type of completed
control paths through its selects; the lazy-init guard (line 48 together with
OnceOK.lazyInit, lines 79 to 83) is modelled by a once-guarded counter; and
the channel-level rendezvous positions of the coordinator, which decide the
race between an outcome delivery and a leave request, are modelled by
CoordPos.

Type parameters: V is the type of values produced by actions (Go interface
values, wrapped in Option so that none is the Go nil interface value), E the
type of non-nil errors (a Go error result is Option E, none being nil), F a
type of identifiers for the caller-supplied functions fn, and W a type of
identifiers for the private result channels (the errc channel each call to Do
allocates at line 49; allocation always yields a fresh channel, which the
model reflects by recording every identifier ever registered and rejecting
re-registration).
-/

namespace Syncutil

set_option linter.unusedSectionVars false

set_option linter.unusedVariables false

variable {V E F W : Type} [DecidableEq W]

/-- State of one OnceOK handle together with its coordinator loop.
Fields val and done are the fields of the OnceOK struct (lines 18 to 23):
val is o.val and done records whether the o.done channel has been closed.
alive records whether the loop goroutine is still running, busy and pend are
the local variables of loop (lines 87 and 89), runners lists the fn
identifiers of attempt-runner goroutines spawned (lines 110 to 114) and not
yet terminated, registered is the set of waiter channels ever registered,
delivered logs each send of an error to a waiter channel (line 97), and
invocations counts how many times an action was started. -/
structure SysState (V E F W : Type) where
  val : Option V
  done : Bool
  alive : Bool
  busy : Bool
  pend : List W
  runners : List F
  registered : Finset W
  delivered : List (W × E)
  invocations : Nat
deriving DecidableEq

/-- Events processed by the coordinator loop: a join op (line 56 sends
op\x7btrue, errc, fn\x7d), a leave op (line 74 sends op\x7bfalse, errc, fn\x7d),
the completion report of the attempt runner on the internal errc channel
(line 113 sent, line 92 received), and the abnormal termination of the
attempt runner inside fn, which dies without ever reporting. -/
inductive Event (F W : Type) where
  | join (w : W) (f : F)
  | leave (w : W)
  | complete
  | crash
deriving DecidableEq

/-- One transition of the coordinator (the body of the for-select in loop,
lines 90 to 118), with the attempt-runner execution of fn folded into the
complete event: eval f is the (value, error) pair fn returns, the runner
writes it to o.val and sends the error (lines 111 to 113), and the loop
reacts (lines 92 to 102). A join op adds the waiter channel to pend
(line 116) and, only when not busy, spawns a runner for the supplied fn
(lines 108 to 115). A leave op removes the channel from pend (lines 104 to
106). On a non-nil error the loop clears pend, sending the error to every
pending channel, and resets busy (lines 93 to 99); on a nil error it closes
o.done and returns (lines 101 to 102). Events are only processed while the
loop goroutine is alive; none marks an impossible event. -/
def step (eval : F → Option V × Option E) (s : SysState V E F W) :
    Event F W → Option (SysState V E F W)
  | .join w f =>
      if s.alive = true then
        if w ∈ s.registered then none
        else if s.busy = true then
          some { s with pend := w :: s.pend, registered := insert w s.registered }
        else
          some { s with busy := true,
                        runners := f :: s.runners,
                        invocations := s.invocations + 1,
                        pend := w :: s.pend,
                        registered := insert w s.registered }
      else none
  | .leave w =>
      if s.alive = true then some { s with pend := s.pend.erase w } else none
  | .complete =>
      if s.alive = true then
        match s.runners with
        | [] => none
        | f :: rest =>
          match eval f with
          | (v, some e) =>
              some { s with val := v,
                            runners := rest,
                            busy := false,
                            pend := [],
                            delivered := s.delivered ++ s.pend.map (fun u => (u, e)) }
          | (v, none) =>
              some { s with val := v, runners := rest, done := true, alive := false }
      else none
  | .crash =>
      if s.alive = true then
        match s.runners with
        | [] => none
        | _ :: rest => some { s with runners := rest }
      else none

/-- The state right after lazyInit (lines 79 to 83): loop started with an
empty pend map and busy false, o.done open, o.val the nil interface value. -/
def initState : SysState V E F W :=
  { val := none, done := false, alive := true, busy := false,
    pend := [], runners := [], registered := ∅, delivered := [], invocations := 0 }

/-- Iterated step over a list of events; none if some event is impossible. -/
def exec (eval : F → Option V × Option E) :
    SysState V E F W → List (Event F W) → Option (SysState V E F W)
  | s, [] => some s
  | s, ev :: evs =>
      match step eval s ev with
      | none => none
      | some s' => exec eval s' evs

/-- Number of error deliveries logged to waiter channel w. -/
def countDeliv (w : W) (l : List (W × E)) : Nat :=
  l.countP (fun p => decide (p.1 = w))

/-- Whether waiter channel w has ever been sent an error. -/
def deliveredTo (w : W) (l : List (W × E)) : Bool :=
  l.any (fun p => decide (p.1 = w))

/-- Invariant of the coordinator state, established by lazyInit and preserved
by every transition: at most one attempt runner is ever active (and only
while busy), the done channel is closed exactly when the loop goroutine has
exited, every pending channel was registered, a pending channel has never
been delivered to, no channel is delivered to twice, and unregistered
channels have never been delivered to. -/
def Inv (s : SysState V E F W) : Prop :=
  s.runners.length ≤ (if s.busy then 1 else 0) ∧
  (s.done = true ↔ s.alive = false) ∧
  s.pend.Nodup ∧
  (∀ w ∈ s.pend, w ∈ s.registered) ∧
  (∀ w ∈ s.pend, countDeliv w s.delivered = 0) ∧
  (∀ w : W, countDeliv w s.delivered ≤ 1) ∧
  (∀ w : W, w ∉ s.registered → countDeliv w s.delivered = 0)

theorem inv_initState : Inv (initState : SysState V E F W) := by
  refine ⟨by simp [initState], by simp [initState], by simp [initState], by simp [initState],
    ?_, ?_, ?_⟩ <;> simp [initState, countDeliv]

/-- Inversion of a join transition. -/
theorem step_join_inv {eval : F → Option V × Option E} {s s' : SysState V E F W} {w : W} {f : F}
    (hstep : step eval s (Event.join w f) = some s') :
    s.alive = true ∧ w ∉ s.registered ∧
      ((s.busy = true ∧
          s' = { s with pend := w :: s.pend, registered := insert w s.registered }) ∨
       (s.busy = false ∧
          s' = { s with busy := true, runners := f :: s.runners,
                        invocations := s.invocations + 1,
                        pend := w :: s.pend, registered := insert w s.registered })) := by
  simp only [step] at hstep
  split at hstep
  · next halive =>
    split at hstep
    · exact absurd hstep (by simp)
    · next hreg =>
      split at hstep
      · next hbusy =>
        exact ⟨halive, hreg, Or.inl ⟨hbusy, (Option.some.inj hstep).symm⟩⟩
      · next hbusy =>
        exact ⟨halive, hreg, Or.inr ⟨by simpa using hbusy, (Option.some.inj hstep).symm⟩⟩
  · exact absurd hstep (by simp)

/-- Inversion of a leave transition. -/
theorem step_leave_inv {eval : F → Option V × Option E} {s s' : SysState V E F W} {w : W}
    (hstep : step eval s (Event.leave w) = some s') :
    s.alive = true ∧ s' = { s with pend := s.pend.erase w } := by
  simp only [step] at hstep
  split at hstep
  · next halive => exact ⟨halive, (Option.some.inj hstep).symm⟩
  · exact absurd hstep (by simp)

/-- Inversion of a completion transition. -/
theorem step_complete_inv {eval : F → Option V × Option E} {s s' : SysState V E F W}
    (hstep : step eval s Event.complete = some s') :
    s.alive = true ∧ ∃ f rest, s.runners = f :: rest ∧
      ((∃ v e, eval f = (v, some e) ∧
          s' = { s with val := v, runners := rest, busy := false, pend := [],
                        delivered := s.delivered ++ s.pend.map (fun u => (u, e)) }) ∨
       (∃ v, eval f = (v, none) ∧
          s' = { s with val := v, runners := rest, done := true, alive := false })) := by
  simp only [step] at hstep
  split at hstep
  · next halive =>
    refine ⟨halive, ?_⟩
    split at hstep
    · exact absurd hstep (by simp)
    · next f rest heq =>
      refine ⟨f, rest, heq, ?_⟩
      split at hstep
      · next v e heval => exact Or.inl ⟨v, e, heval, (Option.some.inj hstep).symm⟩
      · next v heval => exact Or.inr ⟨v, heval, (Option.some.inj hstep).symm⟩
  · exact absurd hstep (by simp)

/-- Inversion of a crash transition. -/
theorem step_crash_inv {eval : F → Option V × Option E} {s s' : SysState V E F W}
    (hstep : step eval s Event.crash = some s') :
    s.alive = true ∧ ∃ f rest, s.runners = f :: rest ∧ s' = { s with runners := rest } := by
  simp only [step] at hstep
  split at hstep
  · next halive =>
    refine ⟨halive, ?_⟩
    split at hstep
    · exact absurd hstep (by simp)
    · next f rest heq => exact ⟨f, rest, heq, (Option.some.inj hstep).symm⟩
  · exact absurd hstep (by simp)

theorem countDeliv_append (w : W) (l₁ l₂ : List (W × E)) :
    countDeliv w (l₁ ++ l₂) = countDeliv w l₁ + countDeliv w l₂ := by
  simp [countDeliv, List.countP_append]

theorem countDeliv_map_not_mem {w : W} {t : List W} (e : E) (hw : w ∉ t) :
    countDeliv w (t.map (fun u => (u, e))) = 0 := by
  induction t with
  | nil => simp [countDeliv]
  | cons a t ih =>
      simp only [List.mem_cons, not_or] at hw
      have ha : ¬(a = w) := fun h => hw.1 h.symm
      simpa [countDeliv, List.countP_cons, ha] using ih hw.2

theorem countDeliv_map_mem {w : W} {t : List W} (e : E) (hnd : t.Nodup) (hw : w ∈ t) :
    countDeliv w (t.map (fun u => (u, e))) = 1 := by
  induction t with
  | nil => simp at hw
  | cons a t ih =>
      rcases List.mem_cons.mp hw with rfl | hmem
      · have hnotin : w ∉ t := (List.nodup_cons.mp hnd).1
        simpa [countDeliv, List.countP_cons] using countDeliv_map_not_mem e hnotin
      · have ha : ¬(a = w) := by
          intro h
          subst h
          exact (List.nodup_cons.mp hnd).1 hmem
        simpa [countDeliv, List.countP_cons, ha] using
          ih (List.nodup_cons.mp hnd).2 hmem

theorem deliveredTo_append_map {w : W} {t : List W} (l : List (W × E)) (e : E) (hw : w ∈ t) :
    deliveredTo w (l ++ t.map (fun u => (u, e))) = true := by
  simp only [deliveredTo, List.any_append, Bool.or_eq_true, List.any_eq_true,
    decide_eq_true_eq]
  exact Or.inr ⟨(w, e), List.mem_map_of_mem _ hw, rfl⟩

/-- Every transition preserves the coordinator invariant. -/
theorem inv_step {eval : F → Option V × Option E} {s s' : SysState V E F W} {ev : Event F W}
    (hs : Inv s) (hstep : step eval s ev = some s') : Inv s' := by
  obtain ⟨h1, h2, h3, h4, h5, h6, h7⟩ := hs
  cases ev with
  | join w f =>
      obtain ⟨halive, hreg, hcase⟩ := step_join_inv hstep
      have hwpend : w ∉ s.pend := fun hw => hreg (h4 w hw)
      rcases hcase with ⟨hbusy, rfl⟩ | ⟨hbusy, rfl⟩
      · refine ⟨by simpa using h1, by simpa using h2, List.nodup_cons.mpr ⟨hwpend, h3⟩,
          ?_, ?_, h6, ?_⟩
        · intro u hu
          rcases List.mem_cons.mp hu with rfl | hu'
          · exact Finset.mem_insert_self u s.registered
          · exact Finset.mem_insert_of_mem (h4 u hu')
        · intro u hu
          rcases List.mem_cons.mp hu with rfl | hu'
          · exact h7 u hreg
          · exact h5 u hu'
        · intro u hu
          exact h7 u (fun hmem => hu (Finset.mem_insert_of_mem hmem))
      · have hnil : s.runners = [] := by
          rw [hbusy] at h1
          simpa using List.length_eq_zero.mp (Nat.le_zero.mp (by simpa using h1))
        refine ⟨by simp [hnil], by simpa using h2, List.nodup_cons.mpr ⟨hwpend, h3⟩,
          ?_, ?_, h6, ?_⟩
        · intro u hu
          rcases List.mem_cons.mp hu with rfl | hu'
          · exact Finset.mem_insert_self u s.registered
          · exact Finset.mem_insert_of_mem (h4 u hu')
        · intro u hu
          rcases List.mem_cons.mp hu with rfl | hu'
          · exact h7 u hreg
          · exact h5 u hu'
        · intro u hu
          exact h7 u (fun hmem => hu (Finset.mem_insert_of_mem hmem))
  | leave w =>
      obtain ⟨halive, rfl⟩ := step_leave_inv hstep
      refine ⟨by simpa using h1, by simpa using h2, h3.erase w, ?_, ?_, h6, h7⟩
      · intro u hu
        exact h4 u (List.mem_of_mem_erase hu)
      · intro u hu
        exact h5 u (List.mem_of_mem_erase hu)
  | complete =>
      obtain ⟨halive, f, rest, hr, hcase⟩ := step_complete_inv hstep
      have hbr : s.busy = true ∧ rest = [] := by
        rw [hr] at h1
        cases hbusy : s.busy with
        | false => rw [hbusy] at h1; simp at h1
        | true =>
            rw [hbusy] at h1
            simp at h1
            exact ⟨rfl, h1⟩
      rcases hcase with ⟨v, e, heval, rfl⟩ | ⟨v, heval, rfl⟩
      · refine ⟨by simp [hbr.2], by simpa using h2, by simp, by simp, by simp, ?_, ?_⟩
        · intro u
          rw [countDeliv_append]
          by_cases hu : u ∈ s.pend
          · rw [h5 u hu, countDeliv_map_mem e h3 hu]
          · rw [countDeliv_map_not_mem e hu]
            simpa using h6 u
        · intro u hu
          rw [countDeliv_append, h7 u hu,
            countDeliv_map_not_mem e (fun hmem => hu (h4 u hmem))]
      · exact ⟨by simp [hbr.2], by simp, h3, h4, h5, h6, h7⟩
  | crash =>
      obtain ⟨halive, f, rest, hr, rfl⟩ := step_crash_inv hstep
      refine ⟨?_, by simpa using h2, h3, h4, h5, h6, h7⟩
      rw [hr] at h1
      cases hbusy : s.busy with
      | false => rw [hbusy] at h1; simp at h1
      | true =>
          rw [hbusy] at h1
          simp at h1
          simp [h1]

/-- Executing a list of events preserves the coordinator invariant. -/
theorem inv_exec {eval : F → Option V × Option E} {s s' : SysState V E F W}
    {evs : List (Event F W)} (hs : Inv s) (h : exec eval s evs = some s') : Inv s' := by
  induction evs generalizing s with
  | nil =>
      simp only [exec, Option.some.injEq] at h
      exact h ▸ hs
  | cons ev evs ih =>
      simp only [exec] at h
      cases hstep : step eval s ev with
      | none => rw [hstep] at h; simp at h
      | some s₁ => rw [hstep] at h; exact ih (inv_step hs hstep) h

/-- Every state reached from the freshly initialized handle satisfies Inv. -/
theorem inv_reachable {eval : F → Option V × Option E} {s : SysState V E F W}
    {evs : List (Event F W)} (h : exec eval initState evs = some s) : Inv s :=
  inv_exec inv_initState h

/-- Completed control paths of a call to OnceOK.Do (lines 41 to 77).  Do runs
through a non-blocking fast-path check of o.done (lines 42 to 46), a register
select (lines 51 to 58), an await select (lines 60 to 67) and, after its
context fires, an unregister select (lines 69 to 76).  Each constructor is
one way the call can return: through the done branch of one of the selects
(carrying the frozen o.val), through the errc branch (carrying the error the
coordinator delivered for the joined attempt), through the ctx branch of the
register select, or through the accepted leave op of the unregister select
(carrying ctx.Err()). -/
inductive DoTrace (V E : Type) where
  | fastDone (v : Option V)
  | regDone (v : Option V)
  | regCtx (e : E)
  | awaitDone (v : Option V)
  | awaitErr (e : E)
  | unregDone (v : Option V)
  | unregErr (e : E)
  | unregLeave (e : E)
deriving DecidableEq

/-- The (value, error) pair Do returns on each completed path, read off the
return statements at lines 44, 53, 55, 62, 64, 71, 73 and 75 of
src/syncutil.go. -/
def doReturn : DoTrace V E → Option V × Option E
  | .fastDone v => (v, none)
  | .regDone v => (v, none)
  | .regCtx e => (none, some e)
  | .awaitDone v => (v, none)
  | .awaitErr e => (none, some e)
  | .unregDone v => (v, none)
  | .unregErr e => (none, some e)
  | .unregLeave e => (none, some e)

/-- Whether the path returned through a branch guarded by receiving on the
closed o.done channel. -/
def viaDone : DoTrace V E → Bool
  | .fastDone _ => true
  | .regDone _ => true
  | .awaitDone _ => true
  | .unregDone _ => true
  | _ => false

/-- Position of the coordinator goroutine relative to its channels.  The
loop is either parked at its select, ready to receive an op on o.opc
(line 91 with line 103), or blocked in the failure fan-out sending the error
of the failed attempt to one pending waiter channel with a list of channels
still to serve (lines 95 to 98), or it has returned after closing o.done
(lines 101 to 102).  Being a single goroutine, it is in exactly one of these
positions at any time, which is what decides the race between an outcome
delivery and a leave request. -/
inductive CoordPos (E W : Type) where
  | atSelect : CoordPos E W
  | sendingErr (w : W) (rest : List W) (e : E) : CoordPos E W
  | exited : CoordPos E W
deriving DecidableEq

/-- The errc receive branch of the waiter owning channel w (lines 63 and 72)
is enabled exactly when the coordinator is blocked sending on that channel
(line 97): both o.opc and the waiter channels are unbuffered. -/
def errcEnabled (p : CoordPos E W) (w : W) : Bool :=
  match p with
  | .sendingErr w' _ _ => decide (w' = w)
  | _ => false

/-- The send of the leave op on o.opc (line 74) is enabled exactly when the
coordinator is parked at its select, ready to receive on o.opc. -/
def opcEnabled : CoordPos E W → Bool
  | .atSelect => true
  | _ => false

/-- Resolution of the unregister select of Do (lines 69 to 76) for the
waiter owning channel w: the done branch fires when o.done is closed
(returning o.val with nil error, line 71), the errc branch fires when the
coordinator is blocked delivering to w (returning nil and the attempt error,
line 73), the leave op is accepted when the coordinator is at its select
(returning nil and ctx.Err(), line 75); none means no branch is enabled yet
and the caller stays blocked. -/
def unregSelect (doneB : Bool) (p : CoordPos E W) (w : W) (val : Option V) (ctxErr : E) :
    Option (Option V × Option E) :=
  if doneB then some (val, none)
  else
    match p with
    | .sendingErr w' _ e => if w' = w then some ((none : Option V), some e) else none
    | .atSelect => some ((none : Option V), some ctxErr)
    | .exited => none

/-- One channel handoff of the failure fan-out (lines 95 to 98): the send to
the current waiter completes and the coordinator moves on to the next
pending channel, finally continuing back to its select (line 99). -/
def fanoutStep : CoordPos E W → CoordPos E W
  | .sendingErr _ [] _ => .atSelect
  | .sendingErr _ (u :: rest) e => .sendingErr u rest e
  | p => p

/-- The failure fan-out always terminates and parks the coordinator back at
its select after one handoff per remaining waiter. -/
theorem fanoutStep_terminates (w : W) (rest : List W) (e : E) :
    fanoutStep^[rest.length + 1] (CoordPos.sendingErr w rest e) =
      (CoordPos.atSelect : CoordPos E W) := by
  induction rest generalizing w with
  | nil => simp [fanoutStep]
  | cons u t ih =>
      simp only [List.length_cons, Function.iterate_succ_apply]
      exact ih u

/-- State of the lazy-init guard of one handle: o.once (line 19) together
with a count of how many times lazyInit has executed.  Under the sync.Once
contract, o.once.Do(o.lazyInit) runs lazyInit iff no earlier call did, all
calls are serialized by the guard, and each execution of lazyInit (lines 79
to 83) makes the done and opc channels and starts exactly one coordinator
loop goroutine. -/
structure OnceState where
  onceDone : Bool
  coordCount : Nat
deriving DecidableEq

/-- One call passing through o.once.Do(o.lazyInit) at line 48. -/
def onceLazyInit (h : OnceState) : OnceState :=
  if h.onceDone then h else { onceDone := true, coordCount := h.coordCount + 1 }

/-- Guard state after n calls to Do have passed line 48 (serialized by the
guard); n = 0 is the zero value of the OnceOK struct. -/
def doCalls : Nat → OnceState
  | 0 => { onceDone := false, coordCount := 0 }
  | n + 1 => onceLazyInit (doCalls n)

theorem doCalls_succ (n : Nat) :
    doCalls (n + 1) = { onceDone := true, coordCount := 1 } := by
  induction n with
  | zero => rfl
  | succ n ih =>
      show onceLazyInit (doCalls (n + 1)) = _
      rw [ih]
      rfl

/-- A coordinator whose attempt runner terminated abnormally without ever
reporting on its errc channel: busy stays set, no runner is active, the
loop is parked at its select and o.done is open. -/
def Orphaned (s : SysState V E F W) : Prop :=
  s.busy = true ∧ s.runners = [] ∧ s.done = false ∧ s.alive = true

theorem orphaned_step {eval : F → Option V × Option E} {s s' : SysState V E F W}
    {ev : Event F W} (hs : Orphaned s) (hstep : step eval s ev = some s') :
    Orphaned s' ∧ s'.delivered = s.delivered ∧ s'.invocations = s.invocations := by
  obtain ⟨hb, hrun, hd, ha⟩ := hs
  cases ev with
  | join w f =>
      obtain ⟨-, -, hcase⟩ := step_join_inv hstep
      rcases hcase with ⟨-, rfl⟩ | ⟨hb', -⟩
      · exact ⟨⟨hb, hrun, hd, ha⟩, rfl, rfl⟩
      · simp [hb] at hb'
  | leave w =>
      obtain ⟨-, rfl⟩ := step_leave_inv hstep
      exact ⟨⟨hb, hrun, hd, ha⟩, rfl, rfl⟩
  | complete =>
      obtain ⟨-, f, rest, hr₀, -⟩ := step_complete_inv hstep
      rw [hrun] at hr₀
      simp at hr₀
  | crash =>
      obtain ⟨-, f, rest, hr₀, -⟩ := step_crash_inv hstep
      rw [hrun] at hr₀
      simp at hr₀

/-- Once orphaned, the coordinator stays orphaned forever: no event can
deliver an outcome, start a runner, or close o.done. -/
theorem orphaned_exec {eval : F → Option V × Option E} {s s' : SysState V E F W}
    {evs : List (Event F W)} (hs : Orphaned s) (h : exec eval s evs = some s') :
    Orphaned s' ∧ s'.delivered = s.delivered ∧ s'.invocations = s.invocations := by
  induction evs generalizing s with
  | nil =>
      simp only [exec, Option.some.injEq] at h
      exact h ▸ ⟨hs, rfl, rfl⟩
  | cons ev evs ih =>
      simp only [exec] at h
      cases hstep : step eval s ev with
      | none => rw [hstep] at h; simp at h
      | some s₁ =>
          rw [hstep] at h
          obtain ⟨ho, hdel, hinvoc⟩ := orphaned_step hs hstep
          obtain ⟨ho', hdel', hinvoc'⟩ := ih ho h
          exact ⟨ho', hdel'.trans hdel, hinvoc'.trans hinvoc⟩

/-- Demo action table for concrete executions: an even identifier f names an
action returning (f, nil), an odd identifier f an action returning (f, f). -/
def evalDemo : Nat → Option Nat × Option Nat :=
  fun f => if f % 2 = 0 then (some f, none) else (some f, some f)

/-- Coordinator state after a first caller with channel 0 joins and spawns a
runner for the failing action 1. -/
def demoBusy : SysState Nat Nat Nat Nat :=
  { val := none, done := false, alive := true, busy := true,
    pend := [0], runners := [1], registered := {0}, delivered := [], invocations := 1 }

/-- demoBusy after a second caller with channel 5 joins, proposing action 7. -/
def demoBusy2 : SysState Nat Nat Nat Nat :=
  { val := none, done := false, alive := true, busy := true,
    pend := [5, 0], runners := [1], registered := {5, 0}, delivered := [], invocations := 1 }

/-- demoBusy2 after the runner of action 1 reports the error 1: fan-out to
channels 5 and 0, coordinator back to idle. -/
def demoBusy2Fail : SysState Nat Nat Nat Nat :=
  { val := some 1, done := false, alive := true, busy := false,
    pend := [], runners := [], registered := {5, 0}, delivered := [(5, 1), (0, 1)],
    invocations := 1 }

/-- demoBusy after its runner reports the error 1: fan-out to channel 0. -/
def demoFail : SysState Nat Nat Nat Nat :=
  { val := some 1, done := false, alive := true, busy := false,
    pend := [], runners := [], registered := {0}, delivered := [(0, 1)], invocations := 1 }

/-- demoFail after a fresh caller with channel 2 joins and spawns a runner
for action 3. -/
def demoFail2 : SysState Nat Nat Nat Nat :=
  { val := some 1, done := false, alive := true, busy := true,
    pend := [2], runners := [3], registered := {2, 0}, delivered := [(0, 1)],
    invocations := 2 }

/-- Frozen state after a caller with channel 0 joins with the succeeding
action 2 and the runner reports nil. -/
def demoDone : SysState Nat Nat Nat Nat :=
  { val := some 2, done := true, alive := false, busy := true,
    pend := [0], runners := [], registered := {0}, delivered := [], invocations := 1 }

/-- State after a caller with channel 0 joins with the succeeding action 2. -/
def demoRun2 : SysState Nat Nat Nat Nat :=
  { val := none, done := false, alive := true, busy := true,
    pend := [0], runners := [2], registered := {0}, delivered := [], invocations := 1 }

/-- demoRun2 after caller 0 cancels and its leave op is processed. -/
def demoLeft : SysState Nat Nat Nat Nat :=
  { val := none, done := false, alive := true, busy := true,
    pend := [], runners := [2], registered := {0}, delivered := [], invocations := 1 }

/-- demoLeft after the abandoned runner of action 2 succeeds in the
background. -/
def demoLeftDone : SysState Nat Nat Nat Nat :=
  { val := some 2, done := true, alive := false, busy := true,
    pend := [], runners := [], registered := {0}, delivered := [], invocations := 1 }

/-- demoBusy after its runner dies abnormally without reporting. -/
def demoCrashed : SysState Nat Nat Nat Nat :=
  { val := none, done := false, alive := true, busy := true,
    pend := [0], runners := [], registered := {0}, delivered := [], invocations := 1 }

/-- demoCrashed after a later caller with channel 7 joins and caller 0
cancels: still no runner, no outcome, no done signal. -/
def demoCrashed2 : SysState Nat Nat Nat Nat :=
  { val := none, done := false, alive := true, busy := true,
    pend := [7], runners := [], registered := {7, 0}, delivered := [], invocations := 1 }

/-- Claim C1: single-flight deduplication: in every reachable state at most
one attempt runner is executing an action, and a join op arriving while an
attempt is in flight (busy coordinator) only adds the new waiter channel to
the pending set of the existing attempt: no second runner is spawned and the
action is not invoked again. -/
theorem onceOK_single_flight {eval : F → Option V × Option E}
    {evs : List (Event F W)} {s s' : SysState V E F W} {w : W} {f : F}
    (h : exec eval initState evs = some s)
    (hbusy : s.busy = true)
    (hjoin : step eval s (Event.join w f) = some s') :
    s.runners.length ≤ 1 ∧ s'.runners = s.runners ∧
      s'.invocations = s.invocations ∧ s'.pend = w :: s.pend := by
  obtain ⟨h1, -, -, -, -, -, -⟩ := inv_reachable h
  have h1' : s.runners.length ≤ 1 := by
    rw [hbusy] at h1
    simpa using h1
  obtain ⟨-, -, hcase⟩ := step_join_inv hjoin
  rcases hcase with ⟨-, rfl⟩ | ⟨hb, -⟩
  · exact ⟨h1', rfl, rfl, rfl⟩
  · simp [hbusy] at hb

/-- Concrete instance of the single-flight theorem: a second caller joining
the attempt of demoBusy changes only the waiter set. -/
theorem onceOK_single_flight_witness :
    exec evalDemo initState [Event.join 0 1] = some demoBusy ∧
      demoBusy.busy = true ∧
      step evalDemo demoBusy (Event.join 5 7) = some demoBusy2 ∧
      (demoBusy.runners.length ≤ 1 ∧ demoBusy2.runners = demoBusy.runners ∧
        demoBusy2.invocations = demoBusy.invocations ∧
        demoBusy2.pend = 5 :: demoBusy.pend) :=
  ⟨by decide, by decide, by decide,
    @onceOK_single_flight Nat Nat Nat Nat _ evalDemo [Event.join 0 1] demoBusy demoBusy2 5 7
      (by decide) (by decide) (by decide)⟩

/-- Claim C2: success freezes forever: in any reachable state in which the
done signal has fired, the coordinator loop has exited, no further event is
possible (so the frozen o.val is never overwritten or cleared and no action
is ever invoked again), and the fast path of Do returns the frozen value
with a nil error. -/
theorem onceOK_success_freezes {eval : F → Option V × Option E}
    {evs evs' : List (Event F W)} {s : SysState V E F W}
    (h : exec eval initState evs = some s)
    (hdone : s.done = true) :
    s.alive = false ∧
      (exec eval s evs' = none ∨ exec eval s evs' = some s) ∧
      (doReturn (DoTrace.fastDone s.val) : Option V × Option E) = (s.val, none) := by
  obtain ⟨-, h2, -, -, -, -, -⟩ := inv_reachable h
  have halive : s.alive = false := h2.mp hdone
  have hnostep : ∀ ev : Event F W, step eval s ev = none := by
    intro ev
    cases ev <;> simp [step, halive]
  refine ⟨halive, ?_, rfl⟩
  cases evs' with
  | nil => exact Or.inr rfl
  | cons ev evs' =>
      left
      simp [exec, hnostep ev]

/-- Concrete instance of the freeze theorem at the frozen state demoDone. -/
theorem onceOK_success_freezes_witness :
    exec evalDemo initState [Event.join 0 2, Event.complete] = some demoDone ∧
      demoDone.done = true ∧
      (demoDone.alive = false ∧
        (exec evalDemo demoDone [Event.join 1 4] = none ∨
          exec evalDemo demoDone [Event.join 1 4] = some demoDone) ∧
        (doReturn (DoTrace.fastDone demoDone.val) : Option Nat × Option Nat) =
          (demoDone.val, none)) :=
  ⟨by decide, by decide,
    @onceOK_success_freezes Nat Nat Nat Nat _ evalDemo [Event.join 0 2, Event.complete]
      [Event.join 1 4] demoDone (by decide) (by decide)⟩

/-- Claim C3: failure fan-out then reset: when the runner of the current
attempt reports a non-nil error, every waiter channel in the pending set is
sent that same error, the set is cleared and the coordinator returns to idle
with its loop still alive; the next join op then spawns a fresh runner, so
the action is invoked again. -/
theorem onceOK_failure_fanout {eval : F → Option V × Option E}
    {evs : List (Event F W)} {s s' s'' : SysState V E F W}
    {f : F} {v : Option V} {e : E} {w w' : W} {f' : F}
    (h : exec eval initState evs = some s)
    (hr : s.runners = [f])
    (he : eval f = (v, some e))
    (hfail : step eval s Event.complete = some s')
    (hw : w ∈ s.pend)
    (hjoin : step eval s' (Event.join w' f') = some s'') :
    s'.busy = false ∧ s'.pend = [] ∧ s'.alive = true ∧ (w, e) ∈ s'.delivered ∧
      s''.runners = [f'] ∧ s''.invocations = s'.invocations + 1 ∧ s''.busy = true := by
  obtain ⟨halive, f₀, rest, hr₀, hcase⟩ := step_complete_inv hfail
  rw [hr] at hr₀
  obtain ⟨rfl, hrest⟩ : f = f₀ ∧ [] = rest := List.cons.inj hr₀
  rcases hcase with ⟨v₀, e₀, heval, rfl⟩ | ⟨v₀, heval, rfl⟩
  · rw [he] at heval
    obtain ⟨rfl, he₀⟩ : v = v₀ ∧ some e = some e₀ := Prod.mk.inj heval
    obtain rfl : e = e₀ := Option.some.inj he₀
    obtain ⟨-, -, hjcase⟩ := step_join_inv hjoin
    rcases hjcase with ⟨hb', -⟩ | ⟨-, rfl⟩
    · simp at hb'
    · refine ⟨rfl, rfl, halive, ?_, ?_, rfl, rfl⟩
      · exact List.mem_append_right _ (List.mem_map_of_mem _ hw)
      · simp [← hrest]
  · rw [he] at heval
    simp at heval

/-- Concrete instance of the fan-out theorem: the attempt of demoBusy fails
with error 1, waiter channel 0 is served, and the next caller spawns a
fresh runner for action 3. -/
theorem onceOK_failure_fanout_witness :
    exec evalDemo initState [Event.join 0 1] = some demoBusy ∧
      demoBusy.runners = [1] ∧
      evalDemo 1 = (some 1, some 1) ∧
      step evalDemo demoBusy Event.complete = some demoFail ∧
      0 ∈ demoBusy.pend ∧
      step evalDemo demoFail (Event.join 2 3) = some demoFail2 ∧
      (demoFail.busy = false ∧ demoFail.pend = [] ∧ demoFail.alive = true ∧
        (0, 1) ∈ demoFail.delivered ∧ demoFail2.runners = [3] ∧
        demoFail2.invocations = demoFail.invocations + 1 ∧ demoFail2.busy = true) :=
  ⟨by decide, by decide, by decide, by decide, by decide, by decide,
    @onceOK_failure_fanout Nat Nat Nat Nat _ evalDemo [Event.join 0 1] demoBusy demoFail
      demoFail2 1 (some 1) 1 0 2 3 (by decide) (by decide) (by decide) (by decide) (by decide)
      (by decide)⟩

/-- Claim C4: exactly one outcome per waiter: a waiter pending in a
reachable state has never been delivered an outcome yet; when the attempt
runner reports, the waiter either observes the fired done signal or is
delivered the attempt error, and it is never delivered more than one
outcome; the remaining way out of Do, the accepted leave op, returns the
cancellation error of its own context. -/
theorem onceOK_exactly_one_outcome {eval : F → Option V × Option E}
    {evs : List (Event F W)} {s s' : SysState V E F W} {w : W} {f : F} (ce : E)
    (h : exec eval initState evs = some s)
    (hw : w ∈ s.pend)
    (hr : s.runners = [f])
    (hcomp : step eval s Event.complete = some s') :
    countDeliv w s.delivered = 0 ∧
      countDeliv w s'.delivered ≤ 1 ∧
      (s'.done = true ∨ deliveredTo w s'.delivered = true) ∧
      (doReturn (DoTrace.unregLeave ce) : Option V × Option E) = (none, some ce) := by
  obtain ⟨-, -, hnd, -, h5, h6, -⟩ := inv_reachable h
  obtain ⟨halive, f₀, rest, hr₀, hcase⟩ := step_complete_inv hcomp
  refine ⟨h5 w hw, ?_, ?_, rfl⟩
  · rcases hcase with ⟨v, e, heval, rfl⟩ | ⟨v, heval, rfl⟩
    · show countDeliv w (s.delivered ++ s.pend.map fun u => (u, e)) ≤ 1
      rw [countDeliv_append, h5 w hw, countDeliv_map_mem e hnd hw]
    · show countDeliv w s.delivered ≤ 1
      exact h6 w
  · rcases hcase with ⟨v, e, heval, rfl⟩ | ⟨v, heval, rfl⟩
    · exact Or.inr (deliveredTo_append_map s.delivered e hw)
    · exact Or.inl rfl

/-- Concrete instance of the exactly-one-outcome theorem at demoBusy. -/
theorem onceOK_exactly_one_outcome_witness :
    exec evalDemo initState [Event.join 0 1] = some demoBusy ∧
      0 ∈ demoBusy.pend ∧
      demoBusy.runners = [1] ∧
      step evalDemo demoBusy Event.complete = some demoFail ∧
      (countDeliv 0 demoBusy.delivered = 0 ∧
        countDeliv 0 demoFail.delivered ≤ 1 ∧
        (demoFail.done = true ∨ deliveredTo 0 demoFail.delivered = true) ∧
        (doReturn (DoTrace.unregLeave 9) : Option Nat × Option Nat) = (none, some 9)) :=
  ⟨by decide, by decide, by decide, by decide,
    @onceOK_exactly_one_outcome Nat Nat Nat Nat _ evalDemo [Event.join 0 1] demoBusy demoFail
      0 1 9 (by decide) (by decide) (by decide) (by decide)⟩

/-- Claim C5: cancellation isolation: processing the leave op of a canceling
caller removes only that channel from the pending set and changes nothing
else: the attempt runner keeps running, other waiters, the frozen slot, the
done signal, the delivery log and the invocation count are untouched, and
the accepted leave op returns the cancellation error of the callers own
context; if the abandoned runner later reports nil, the done signal fires,
the value is memoized and the fast path serves it to later callers. -/
theorem onceOK_cancellation_isolation {eval : F → Option V × Option E}
    {evs : List (Event F W)} {s s' s'' : SysState V E F W} {w : W} {f : F} {v : Option V}
    (ce : E)
    (h : exec eval initState evs = some s)
    (hleave : step eval s (Event.leave w) = some s')
    (hr : s'.runners = [f])
    (he : eval f = (v, none))
    (hcomp : step eval s' Event.complete = some s'') :
    s'.pend = s.pend.erase w ∧ s'.busy = s.busy ∧ s'.runners = s.runners ∧
      s'.val = s.val ∧ s'.done = s.done ∧ s'.delivered = s.delivered ∧
      s'.invocations = s.invocations ∧
      s''.done = true ∧ s''.val = v ∧
      (doReturn (DoTrace.unregLeave ce) : Option V × Option E) = (none, some ce) ∧
      (doReturn (DoTrace.fastDone s''.val) : Option V × Option E) = (s''.val, none) := by
  obtain ⟨halive, rfl⟩ := step_leave_inv hleave
  obtain ⟨halive', f₀, rest, hr₀, hcase⟩ := step_complete_inv hcomp
  rw [hr] at hr₀
  obtain ⟨rfl, -⟩ : f = f₀ ∧ [] = rest := List.cons.inj hr₀
  rcases hcase with ⟨v₀, e₀, heval, rfl⟩ | ⟨v₀, heval, rfl⟩
  · rw [he] at heval
    simp at heval
  · rw [he] at heval
    obtain ⟨rfl, -⟩ : v = v₀ ∧ (none : Option E) = none := Prod.mk.inj heval
    exact ⟨rfl, rfl, rfl, rfl, rfl, rfl, rfl, rfl, rfl, rfl, rfl⟩

/-- Concrete instance of the cancellation-isolation theorem: caller 0
abandons its wait, the runner of action 2 succeeds in the background, and
the value 2 is memoized. -/
theorem onceOK_cancellation_isolation_witness :
    exec evalDemo initState [Event.join 0 2] = some demoRun2 ∧
      step evalDemo demoRun2 (Event.leave 0) = some demoLeft ∧
      demoLeft.runners = [2] ∧
      evalDemo 2 = (some 2, none) ∧
      step evalDemo demoLeft Event.complete = some demoLeftDone ∧
      (demoLeft.pend = demoRun2.pend.erase 0 ∧ demoLeft.busy = demoRun2.busy ∧
        demoLeft.runners = demoRun2.runners ∧ demoLeft.val = demoRun2.val ∧
        demoLeft.done = demoRun2.done ∧ demoLeft.delivered = demoRun2.delivered ∧
        demoLeft.invocations = demoRun2.invocations ∧
        demoLeftDone.done = true ∧ demoLeftDone.val = some 2 ∧
        (doReturn (DoTrace.unregLeave 9) : Option Nat × Option Nat) = (none, some 9) ∧
        (doReturn (DoTrace.fastDone demoLeftDone.val) : Option Nat × Option Nat) =
          (demoLeftDone.val, none)) :=
  ⟨by decide, by decide, by decide, by decide, by decide,
    @onceOK_cancellation_isolation Nat Nat Nat Nat _ evalDemo [Event.join 0 2] demoRun2
      demoLeft demoLeftDone 0 2 (some 2) 9 (by decide) (by decide) (by decide) (by decide)
      (by decide)⟩

/-- Claim C6: delivery beats leave: while the coordinator is blocked sending
the attempt error to the channel of waiter w, the errc branch of that
waiters unregister select is enabled and its leave op cannot be accepted
(the coordinator is not at its select), so the select takes the delivery;
when the coordinator is at its select the leave op is accepted and returns
the cancellation error; the two enabling conditions are exclusive at every
coordinator position, so the caller ends in exactly one of the two states
and never in both; and the fan-out always returns the coordinator to its
select after finitely many handoffs, so the caller is never left with
neither. -/
theorem onceOK_delivery_beats_leave (w : W) (rest : List W) (e : E) (val : Option V)
    (ce : E) (p : CoordPos E W) :
    errcEnabled (CoordPos.sendingErr w rest e) w = true ∧
      opcEnabled (CoordPos.sendingErr w rest e : CoordPos E W) = false ∧
      unregSelect false (CoordPos.sendingErr w rest e) w val ce =
        some ((none : Option V), some e) ∧
      unregSelect false (CoordPos.atSelect : CoordPos E W) w val ce =
        some ((none : Option V), some ce) ∧
      (errcEnabled p w && opcEnabled p) = false ∧
      fanoutStep^[rest.length + 1] (CoordPos.sendingErr w rest e) =
        (CoordPos.atSelect : CoordPos E W) := by
  refine ⟨by simp [errcEnabled], rfl, by simp [unregSelect], rfl, ?_,
    fanoutStep_terminates w rest e⟩
  cases p <;> simp [errcEnabled, opcEnabled]

/-- Claim C7: lazy initialization is once-only: under the one-time-execution
contract of the guard, any number of serialized passes through line 48
execute lazyInit exactly once, so exactly one coordinator loop and one pair
of channels exist after the first call and every call observes that single
coordinator. -/
theorem onceOK_lazy_init_once (n m : Nat) (hn : 1 ≤ n) :
    (doCalls n).coordCount = 1 ∧ (doCalls n).onceDone = true ∧
      (doCalls m).coordCount ≤ 1 := by
  obtain ⟨k, rfl⟩ : ∃ k, n = k + 1 := ⟨n - 1, by omega⟩
  refine ⟨by rw [doCalls_succ], by rw [doCalls_succ], ?_⟩
  cases m with
  | zero => exact Nat.zero_le 1
  | succ k' =>
      rw [doCalls_succ]

/-- Concrete instance of the lazy-init theorem after three calls. -/
theorem onceOK_lazy_init_once_witness :
    1 ≤ 3 ∧
      ((doCalls 3).coordCount = 1 ∧ (doCalls 3).onceDone = true ∧
        (doCalls 0).coordCount ≤ 1) :=
  ⟨by decide, onceOK_lazy_init_once 3 0 (by decide)⟩

/-- Claim C8: abnormal action termination is uncontained: if the runner of
the current attempt dies without reporting, the coordinator is left busy
with no active runner, and from then on no sequence of events can deliver
an outcome, start another runner, or fire the done signal: every waiter and
every future caller blocks with no error delivered. -/
theorem onceOK_crash_hangs {eval : F → Option V × Option E}
    {evs evs₂ : List (Event F W)} {s s' s'' : SysState V E F W} {f : F}
    (h : exec eval initState evs = some s)
    (hr : s.runners = [f])
    (hcrash : step eval s Event.crash = some s')
    (h2 : exec eval s' evs₂ = some s'') :
    s''.done = false ∧ s''.runners = [] ∧ s''.busy = true ∧
      s''.delivered = s'.delivered ∧ s''.invocations = s'.invocations := by
  obtain ⟨h1, h2iff, -, -, -, -, -⟩ := inv_reachable h
  obtain ⟨halive, f₀, rest, hr₀, rfl⟩ := step_crash_inv hcrash
  rw [hr] at hr₀
  obtain ⟨-, hrest⟩ : f = f₀ ∧ [] = rest := List.cons.inj hr₀
  have hbusy : s.busy = true := by
    cases hb : s.busy with
    | false => rw [hb, hr] at h1; simp at h1
    | true => rfl
  have hdone : s.done = false := by
    cases hd : s.done with
    | false => rfl
    | true =>
        have hdead := h2iff.mp hd
        rw [halive] at hdead
        simp at hdead
  have horph : Orphaned ({ s with runners := rest } : SysState V E F W) :=
    ⟨hbusy, hrest.symm, hdone, halive⟩
  obtain ⟨⟨hb'', hrun'', hdone'', -⟩, hdel, hinvoc⟩ := orphaned_exec horph h2
  exact ⟨hdone'', hrun'', hb'', hdel, hinvoc⟩

/-- Concrete instance of the crash theorem: after the runner of demoBusy
dies, a later join and a cancellation change nothing observable: no
delivery, no new runner, no done signal. -/
theorem onceOK_crash_hangs_witness :
    exec evalDemo initState [Event.join 0 1] = some demoBusy ∧
      demoBusy.runners = [1] ∧
      step evalDemo demoBusy Event.crash = some demoCrashed ∧
      exec evalDemo demoCrashed [Event.join 7 9, Event.leave 0] = some demoCrashed2 ∧
      (demoCrashed2.done = false ∧ demoCrashed2.runners = [] ∧
        demoCrashed2.busy = true ∧ demoCrashed2.delivered = demoCrashed.delivered ∧
        demoCrashed2.invocations = demoCrashed.invocations) :=
  ⟨by decide, by decide, by decide, by decide,
    @onceOK_crash_hangs Nat Nat Nat Nat _ evalDemo [Event.join 0 1]
      [Event.join 7 9, Event.leave 0] demoBusy demoCrashed demoCrashed2 1
      (by decide) (by decide) (by decide) (by decide)⟩

/-- Claim C9: an error return always carries a nil value: every path of Do
returning a non-nil error returns the nil interface value, and every path
returning a non-nil value carries a nil error and went through a branch
guarded by the closed done channel; the value a failing action returned
alongside its error is written to the o.val slot but the done signal does
not fire, so no caller ever observes it. -/
theorem onceOK_err_nil_value {eval : F → Option V × Option E}
    {evs : List (Event F W)} {s s' : SysState V E F W} {f : F} {v : V} {e : E}
    (t : DoTrace V E)
    (h : exec eval initState evs = some s)
    (hr : s.runners = [f])
    (he : eval f = (some v, some e))
    (hfail : step eval s Event.complete = some s') :
    ((doReturn t).2 ≠ none → (doReturn t).1 = none) ∧
      ((doReturn t).1 ≠ none → (doReturn t).2 = none ∧ viaDone t = true) ∧
      s'.val = some v ∧ s'.done = false := by
  obtain ⟨-, h2iff, -, -, -, -, -⟩ := inv_reachable h
  obtain ⟨halive, f₀, rest, hr₀, hcase⟩ := step_complete_inv hfail
  rw [hr] at hr₀
  obtain ⟨rfl, -⟩ : f = f₀ ∧ [] = rest := List.cons.inj hr₀
  have hdone : s.done = false := by
    cases hd : s.done with
    | false => rfl
    | true =>
        have hdead := h2iff.mp hd
        rw [halive] at hdead
        simp at hdead
  rcases hcase with ⟨v₀, e₀, heval, rfl⟩ | ⟨v₀, heval, rfl⟩
  · rw [he] at heval
    obtain ⟨hv, -⟩ := Prod.mk.inj heval
    refine ⟨?_, ?_, hv.symm, hdone⟩
    · cases t <;> simp [doReturn]
    · cases t <;> simp [doReturn, viaDone]
  · rw [he] at heval
    simp at heval

/-- Concrete instance of the nil-value theorem: action 1 fails with value 1
and error 1; the value lands in the slot, done stays open, and the errc
path returns (nil, error). -/
theorem onceOK_err_nil_value_witness :
    exec evalDemo initState [Event.join 0 1] = some demoBusy ∧
      demoBusy.runners = [1] ∧
      evalDemo 1 = (some 1, some 1) ∧
      step evalDemo demoBusy Event.complete = some demoFail ∧
      (((doReturn (DoTrace.awaitErr 1 : DoTrace Nat Nat)).2 ≠ none →
          (doReturn (DoTrace.awaitErr 1 : DoTrace Nat Nat)).1 = none) ∧
        ((doReturn (DoTrace.awaitErr 1 : DoTrace Nat Nat)).1 ≠ none →
          (doReturn (DoTrace.awaitErr 1 : DoTrace Nat Nat)).2 = none ∧
            viaDone (DoTrace.awaitErr 1 : DoTrace Nat Nat) = true) ∧
        demoFail.val = some 1 ∧ demoFail.done = false) :=
  ⟨by decide, by decide, by decide, by decide,
    @onceOK_err_nil_value Nat Nat Nat Nat _ evalDemo [Event.join 0 1] demoBusy demoFail 1 1 1
      (DoTrace.awaitErr 1) (by decide) (by decide) (by decide) (by decide)⟩

/-- Claim C10: only the first joiners function runs: the join that moves the
coordinator from idle to busy spawns the runner for its own fn; a later
joiner of the same attempt adds only its channel and neither replaces the
runner nor gets its own fn invoked, so on failure the later joiner is
delivered the outcome of a function it never supplied. -/
theorem onceOK_first_fn_runs {eval : F → Option V × Option E}
    {evs : List (Event F W)} {s s₁ s₂ s₃ : SysState V E F W}
    {w w' : W} {f f' : F} {v : Option V} {e : E}
    (h : exec eval initState evs = some s)
    (hidle : s.busy = false)
    (hjoin : step eval s (Event.join w f) = some s₁)
    (hjoin' : step eval s₁ (Event.join w' f') = some s₂)
    (he : eval f = (v, some e))
    (hcomp : step eval s₂ Event.complete = some s₃) :
    s₁.runners = [f] ∧ s₂.runners = [f] ∧ s₂.invocations = s₁.invocations ∧
      s₃.val = v ∧ (w', e) ∈ s₃.delivered := by
  obtain ⟨h1, -, -, -, -, -, -⟩ := inv_reachable h
  have hnil : s.runners = [] := by
    rw [hidle] at h1
    simpa using h1
  obtain ⟨-, -, hcase₁⟩ := step_join_inv hjoin
  rcases hcase₁ with ⟨hb, -⟩ | ⟨-, rfl⟩
  · simp [hidle] at hb
  · obtain ⟨-, -, hcase₂⟩ := step_join_inv hjoin'
    rcases hcase₂ with ⟨-, rfl⟩ | ⟨hb₂, -⟩
    · obtain ⟨-, f₀, rest, hr₀, hcase₃⟩ := step_complete_inv hcomp
      have hr₂ : [f] = f₀ :: rest := by
        rw [← hr₀]
        show [f] = f :: s.runners
        rw [hnil]
      obtain ⟨rfl, -⟩ : f = f₀ ∧ [] = rest := List.cons.inj hr₂
      rcases hcase₃ with ⟨v₀, e₀, heval, rfl⟩ | ⟨v₀, heval, rfl⟩
      · rw [he] at heval
        obtain ⟨hv, he₀⟩ := Prod.mk.inj heval
        obtain rfl : e = e₀ := Option.some.inj he₀
        refine ⟨by simp [hnil], by simp [hnil], rfl, hv.symm, ?_⟩
        exact List.mem_append_right _
          (List.mem_map_of_mem _ (List.mem_cons_self _ _))
      · rw [he] at heval
        simp at heval
    · simp at hb₂

/-- Concrete instance of the first-fn theorem: caller 5 proposes action 7
but joins the attempt running action 1 and is delivered its error 1. -/
theorem onceOK_first_fn_runs_witness :
    exec evalDemo initState [] = some (initState : SysState Nat Nat Nat Nat) ∧
      (initState : SysState Nat Nat Nat Nat).busy = false ∧
      step evalDemo initState (Event.join 0 1) = some demoBusy ∧
      step evalDemo demoBusy (Event.join 5 7) = some demoBusy2 ∧
      evalDemo 1 = (some 1, some 1) ∧
      step evalDemo demoBusy2 Event.complete = some demoBusy2Fail ∧
      (demoBusy.runners = [1] ∧ demoBusy2.runners = [1] ∧
        demoBusy2.invocations = demoBusy.invocations ∧
        demoBusy2Fail.val = some 1 ∧ (5, 1) ∈ demoBusy2Fail.delivered) :=
  ⟨by decide, by decide, by decide, by decide, by decide, by decide,
    @onceOK_first_fn_runs Nat Nat Nat Nat _ evalDemo [] initState demoBusy demoBusy2
      demoBusy2Fail 0 5 1 7 (some 1) 1 (by decide) (by decide) (by decide) (by decide)
      (by decide) (by decide)⟩

end Syncutil
